import Mathlib

/-!
Verification development for the students-performance dashboard pipeline
(`build_students_dashboard.py`).

The script is a linear extract-transform-load pipeline over one in-memory
table.  We embed it shallowly:

* a table is a list of rows; a row holds one `Option` value per schema
  column (categorical values are strings, scores are rationals, `none`
  models a missing value / NaN);
* the cleaning step (lines 39-52 of the source) is `clean`: per-column
  mean imputation for the numeric columns and mode imputation for the
  categorical columns.  `pandas.Series.mode` returns the tied most
  frequent values in ascending sorted order, so `.iloc[0]` picks the
  least such value; `.mode().iloc[0]` on an all-missing column raises,
  which the embedding models by `clean` returning `none`;
* the derived columns (lines 56-60) are `rowAverage` (the row-wise mean
  of the three scores with pandas skip-missing semantics, rounded to two
  decimals with round-half-to-even, as `Series.round` does) and `bandOf`
  (the `pd.cut` banding with right-closed bins);
* the sorted top-20 views (lines 64-65) are `descBy`/`topN`:
  `DataFrame.sort_values(ascending=False)` computes a descending order
  by reversing an ascending argsort and placing missing keys last; for
  arrays below the numpy introsort threshold the ascending kernel is a
  stable insertion sort, which the embedding uses;
* the band distribution (line 71) is `bandCounts`: `value_counts` on an
  ordered categorical counts every category (missing values dropped) and
  `sort_index` puts the four bands in their fixed declared order;
* the report (lines 110-214) is modelled at the level of cell grids:
  `richCleanedSheet` is the openpyxl path (`dataframe_to_rows` appended
  row by row), `fallbackCleanedSheet` is the `DataFrame.to_excel` path,
  and the two summary-data extractions list the data values each path
  writes, block by block, in the order the source writes them.

Machine floats are modelled by `ℚ` and Python strings by `String` with
the code-point lexicographic order `strLe`.
-/

namespace Dashboard

/-- The four performance-band labels of line 59 of the source, in their
declared order. -/
inductive Band
  | Low
  | Fair
  | Good
  | Excellent
deriving DecidableEq, Repr

/-- Round a rational to the nearest integer, halves to the nearest even
integer.  This is the rounding used by `numpy.round` / `Series.round`. -/
def rne (q : ℚ) : ℤ :=
  let f := Int.floor q
  let frac := q - f
  if frac < 1/2 then f
  else if frac > 1/2 then f + 1
  else if f % 2 = 0 then f else f + 1

/-- Rounding to two decimal places, as in `.round(2)` on line 56 and 68
of the source. -/
def round2 (q : ℚ) : ℚ := (rne (q * 100) : ℚ) / 100

/-- Code-point lexicographic comparison of character lists, the order
Python uses to compare the strings of a column when `Series.mode` sorts
its result. -/
def charListLe : List Char → List Char → Bool
  | [], _ => true
  | _ :: _, [] => false
  | a :: as, b :: bs => if a = b then charListLe as bs else decide (a < b)

/-- Lexicographic comparison of strings by code points. -/
def strLe (a b : String) : Bool := charListLe a.data b.data

/-- One record of the table after the column renaming of lines 26-36 of
the source: the five categorical columns and the three score columns, in
the column order of the input file.  A `none` entry is a missing value. -/
structure Row where
  gender : Option String
  raceEthnicity : Option String
  parentalEducation : Option String
  lunch : Option String
  testPrep : Option String
  math : Option ℚ
  reading : Option ℚ
  writing : Option ℚ
deriving DecidableEq, Repr

/-- Mean of the non-missing entries of a column, `none` when every entry
is missing (`Series.mean` of an all-NaN column is NaN). -/
def colMean (xs : List (Option ℚ)) : Option ℚ :=
  let vs := xs.filterMap id
  if vs = [] then none else some (vs.sum / (vs.length : ℚ))

/-- The fill value the numeric loop of lines 46-48 uses for one column:
the column mean when the column has a missing entry, no fill otherwise.
Filling with the NaN mean of an all-missing column leaves the column
unchanged, which the embedding renders as a `none` fill value. -/
def numFill (xs : List (Option ℚ)) : Option ℚ :=
  if xs.any (fun x => x.isNone) then colMean xs else none

/-- The value `df[c].mode().iloc[0]` of line 52 for one categorical
column: among the non-missing values of maximal multiplicity, the least
one in lexicographic order (`Series.mode` returns the tied values in
ascending sorted order).  `none` when the column has no non-missing
value, in which case the source raises an IndexError. -/
def modeVal (xs : List (Option String)) : Option String :=
  let vs := xs.filterMap id
  let maxc := (vs.map (fun v => vs.count v)).foldr max 0
  match vs.filter (fun v => vs.count v = maxc) with
  | [] => none
  | b :: bs => some (bs.foldl (fun a c => if strLe a c then a else c) b)

/-- The fill decision of the categorical loop of lines 50-52 for one
column: outer `none` models the IndexError raised by `.mode().iloc[0]`
on a column with no non-missing value; inner value is the fill value
(`none` when the column has no missing entry and the guard skips it). -/
def catFill (xs : List (Option String)) : Option (Option String) :=
  if xs.any (fun x => x.isNone) then
    match modeVal xs with
    | none => none
    | some m => some (some m)
  else some none

/-- Replace a missing entry by the fill value, as `Series.fillna` does
cell-wise. -/
def fillCell {α : Type} (m : Option α) (x : Option α) : Option α :=
  match x with
  | some v => some v
  | none => m

/-- Apply the eight per-column fill values to one row. -/
def cleanRow (fM fR fW : Option ℚ) (fvG fvR fvP fvL fvT : Option String) (r : Row) : Row :=
  { gender := fillCell fvG r.gender
    raceEthnicity := fillCell fvR r.raceEthnicity
    parentalEducation := fillCell fvP r.parentalEducation
    lunch := fillCell fvL r.lunch
    testPrep := fillCell fvT r.testPrep
    math := fillCell fM r.math
    reading := fillCell fR r.reading
    writing := fillCell fW r.writing }

/-- The fill-missing step, lines 46-52 of the source: mean imputation
for the numeric columns, then mode imputation for the categorical
columns.  Each fill value is computed from its own column before any
entry of that column is changed (fills never touch another column).
`none` models the IndexError on an all-missing categorical column. -/
def clean (t : List Row) : Option (List Row) :=
  match catFill (t.map (fun r => r.gender)), catFill (t.map (fun r => r.raceEthnicity)),
    catFill (t.map (fun r => r.parentalEducation)), catFill (t.map (fun r => r.lunch)),
    catFill (t.map (fun r => r.testPrep)) with
  | some fvG, some fvR, some fvP, some fvL, some fvT =>
    some (t.map (cleanRow (numFill (t.map (fun r => r.math)))
      (numFill (t.map (fun r => r.reading))) (numFill (t.map (fun r => r.writing)))
      fvG fvR fvP fvL fvT))
  | _, _, _, _, _ => none

/-- Line 56 of the source, cell-wise: `df[num_cols].mean(axis=1).round(2)`.
`DataFrame.mean(axis=1)` skips missing entries, so the result is the mean
of the present scores, missing only when all three scores are missing. -/
def rowAverage (r : Row) : Option ℚ :=
  let vs := [r.math, r.reading, r.writing].filterMap id
  if vs = [] then none else some (round2 (vs.sum / (vs.length : ℚ)))

/-- Line 58-60 of the source, cell-wise: `pd.cut` with bins
`[-inf, 50, 70, 85, inf]` puts a finite value `x` into the right-closed
interval it belongs to. -/
def bandOf (x : ℚ) : Band :=
  if x ≤ 50 then Band.Low
  else if x ≤ 70 then Band.Fair
  else if x ≤ 85 then Band.Good
  else Band.Excellent

/-- A row of the table after the derivation stage: the cleaned base row
plus the `Average` column and the `Performance_Band` column.  `pd.cut`
maps a missing average to a missing band. -/
structure DRow where
  base : Row
  average : Option ℚ
  band : Option Band
deriving DecidableEq, Repr

/-- Derivation of lines 56-60 for one row. -/
def derive (r : Row) : DRow :=
  { base := r, average := rowAverage r, band := (rowAverage r).map bandOf }

/-- Derivation stage applied to the cleaned table. -/
def addDerived (t : List Row) : List DRow := t.map derive

/-- Descending sort on an optional numeric key, as
`sort_values(column, ascending=False)` on lines 64-65 computes it: the
rows with a present key are sorted ascending by a stable kernel and the
result reversed, rows with a missing key go last. -/
def descBy (key : DRow → Option ℚ) (t : List DRow) : List DRow :=
  let present := t.filter (fun r => (key r).isSome)
  let missing := t.filter (fun r => (key r).isNone)
  (List.insertionSort (fun a b => ((key a).getD 0) ≤ ((key b).getD 0)) present).reverse ++ missing

/-- A sorted top view, `sort_values(...).head(n)`. -/
def topN (key : DRow → Option ℚ) (n : Nat) (t : List DRow) : List DRow :=
  (descBy key t).take n

/-- Line 64 of the source: the top 20 rows by `Average`. -/
def sortedByAvgDesc (t : List DRow) : List DRow := topN (fun r => r.average) 20 t

/-- Line 65 of the source: the top 20 rows by `Math`. -/
def sortedByMathDesc (t : List DRow) : List DRow := topN (fun r => r.base.math) 20 t

/-- Line 71 of the source:
`value_counts().sort_index()` on the Performance_Band column.  On an ordered
categorical column `value_counts` counts every declared category
(missing values are dropped) and `sort_index` orders the result by the
declared category order, so the result is always the four bands in their
fixed order with their row counts. -/
def bandCounts (t : List DRow) : List (Band × Nat) :=
  [Band.Low, Band.Fair, Band.Good, Band.Excellent].map
    (fun b => (b, t.countP (fun r => decide (r.band = some b))))

/-- Line 39 of the source before sorting: `df.isna().sum()`, the count
of missing entries of every column of the loaded table, in column
order. -/
def missingCounts (t : List Row) : List (String × Nat) :=
  [("Gender", (t.map (fun r => r.gender)).countP (fun x => x.isNone)),
   ("Race_Ethnicity", (t.map (fun r => r.raceEthnicity)).countP (fun x => x.isNone)),
   ("Parental_Education", (t.map (fun r => r.parentalEducation)).countP (fun x => x.isNone)),
   ("Lunch", (t.map (fun r => r.lunch)).countP (fun x => x.isNone)),
   ("Test_Prep", (t.map (fun r => r.testPrep)).countP (fun x => x.isNone)),
   ("Math", (t.map (fun r => r.math)).countP (fun x => x.isNone)),
   ("Reading", (t.map (fun r => r.reading)).countP (fun x => x.isNone)),
   ("Writing", (t.map (fun r => r.writing)).countP (fun x => x.isNone))]

/-- Line 39 of the source: the missing counts sorted descending by
count (`sort_values(ascending=False)` reverses a stable ascending
sort). -/
def reportedMissing (t : List Row) : List (String × Nat) :=
  (List.insertionSort (fun a b : String × Nat => a.2 ≤ b.2) (missingCounts t)).reverse

/-- Helper for line 40 of the source: count the rows equal to an
earlier row, threading the set of rows already seen. -/
def dupAux : List Row → List Row → Nat
  | _, [] => 0
  | seen, r :: rest => (if r ∈ seen then 1 else 0) + dupAux (r :: seen) rest

/-- Line 40 of the source: `int(df.duplicated().sum())`, the number of
rows that duplicate an earlier row. -/
def duplicateCount (t : List Row) : Nat := dupAux [] t

/-- A spreadsheet cell value: a string, a number, a band label, or an
empty cell (written for a missing value). -/
inductive Cell
  | strC (v : String)
  | ratC (v : ℚ)
  | natC (v : Nat)
  | bandC (v : Band)
  | blank
deriving DecidableEq, Repr

/-- Cell written for an optional string value. -/
def optStr (x : Option String) : Cell :=
  match x with
  | some v => Cell.strC v
  | none => Cell.blank

/-- Cell written for an optional numeric value. -/
def optRat (x : Option ℚ) : Cell :=
  match x with
  | some v => Cell.ratC v
  | none => Cell.blank

/-- Cell written for an optional band value. -/
def optBand (x : Option Band) : Cell :=
  match x with
  | some v => Cell.bandC v
  | none => Cell.blank

/-- The header row of the cleaned table: the eight schema columns in
input order followed by the two derived columns, as appended on
lines 56-60 of the source. -/
def headerRow : List Cell :=
  [Cell.strC "Gender", Cell.strC "Race_Ethnicity", Cell.strC "Parental_Education",
   Cell.strC "Lunch", Cell.strC "Test_Prep", Cell.strC "Math", Cell.strC "Reading",
   Cell.strC "Writing", Cell.strC "Average", Cell.strC "Performance_Band"]

/-- The cells of one data row of the cleaned table. -/
def rowCells (r : DRow) : List Cell :=
  [optStr r.base.gender, optStr r.base.raceEthnicity, optStr r.base.parentalEducation,
   optStr r.base.lunch, optStr r.base.testPrep, optRat r.base.math, optRat r.base.reading,
   optRat r.base.writing, optRat r.average, optBand r.band]

/-- The row sequence produced by
`dataframe_to_rows(df, index=False, header=True)` on line 116 of the
source: the header row, then one row of cells per table row. -/
def dataframeToRows (t : List DRow) : List (List Cell) :=
  headerRow :: t.map rowCells

/-- The `Cleaned_Data` sheet of the rich path, lines 114-117 of the
source: starting from an empty sheet, each generated row is appended in
turn. -/
def richCleanedSheet (t : List DRow) : List (List Cell) :=
  (dataframeToRows t).foldl (fun ws r => ws ++ [r]) []

/-- The `Cleaned_Data` sheet of the fallback path, line 192 of the
source: `df.to_excel` with sheet name Cleaned_Data and no index
writes the header row and then every data row. -/
def fallbackCleanedSheet (t : List DRow) : List (List Cell) :=
  headerRow :: t.map rowCells

/-- The data rows of one aggregation block (`by_gender`, `by_race`,
`by_prep`): the group key followed by the group statistics.  The
aggregation itself is kept abstract here: both report paths consume the same
precomputed table (lines 68-70 of the source run before the branch). -/
def aggRows (a : List (String × List ℚ)) : List (List Cell) :=
  a.map (fun p => Cell.strC p.1 :: p.2.map Cell.ratC)

/-- Everything the report consumes.  `runPipeline` fills this record in
the order the source computes the values. -/
structure PipelineOut where
  reportMissing : List (String × Nat)
  reportDup : Nat
  table : List DRow
  topAvg : List DRow
  topMath : List DRow
  bands : List (Band × Nat)
deriving Repr

/-- The pipeline of sections 2-6 of the source, lines 39-71, in source
order: the data-quality counts are taken on the loaded table, then the
missing values are filled, then the derived columns and the views are
computed.  `none` models the IndexError that line 52 raises on an
all-missing categorical column. -/
def runPipeline (t : List Row) : Option PipelineOut :=
  let miss := reportedMissing t
  let dups := duplicateCount t
  match clean t with
  | none => none
  | some t2 =>
    let d := addDerived t2
    some { reportMissing := miss, reportDup := dups, table := d,
           topAvg := sortedByAvgDesc d, topMath := sortedByMathDesc d,
           bands := bandCounts d }

/-- The data values the rich path writes to the `Summary` sheet, block
by block, lines 127-165 of the source: the duplicate count, the missing
counts, the three aggregation tables, and the two top-20 views.  Titles,
layout, and the embedded chart images (lines 168-186) are not data
values and are abstracted away. -/
def richSummaryData (out : PipelineOut) (byGender byRace byPrep : List (String × List ℚ)) :
    List (List (List Cell)) :=
  [[[Cell.natC out.reportDup]],
   out.reportMissing.map (fun p => [Cell.strC p.1, Cell.natC p.2]),
   aggRows byGender, aggRows byRace, aggRows byPrep,
   out.topAvg.map rowCells, out.topMath.map rowCells]

/-- The data values the fallback path writes to the `Summary` sheet,
block by block, lines 195-214 of the source: the same blocks in the same
order, concatenated with blank separators instead of titled anchors, and
no images.  The column alignment of the concatenated frame is layout,
not data, and is abstracted away. -/
def fallbackSummaryData (out : PipelineOut) (byGender byRace byPrep : List (String × List ℚ)) :
    List (List (List Cell)) :=
  [[[Cell.natC out.reportDup]],
   out.reportMissing.map (fun p => [Cell.strC p.1, Cell.natC p.2]),
   aggRows byGender, aggRows byRace, aggRows byPrep,
   out.topAvg.map rowCells, out.topMath.map rowCells]

/-- A column in which filling can succeed on every entry: either empty,
or with at least one non-missing value to compute a mean from. -/
def colOK (xs : List (Option ℚ)) : Prop :=
  xs = [] ∨ xs.any (fun x => x.isSome) = true

instance (xs : List (Option ℚ)) : Decidable (colOK xs) := by
  unfold colOK
  infer_instance

/-- Every schema column of the row has a value. -/
def rowComplete (r : Row) : Prop :=
  r.gender.isSome = true ∧ r.raceEthnicity.isSome = true ∧
  r.parentalEducation.isSome = true ∧ r.lunch.isSome = true ∧
  r.testPrep.isSome = true ∧ r.math.isSome = true ∧
  r.reading.isSome = true ∧ r.writing.isSome = true

instance (r : Row) : Decidable (rowComplete r) := by
  unfold rowComplete
  infer_instance

/-- Descending comparison on an optional sort key: whenever both keys
are present, the later one is at most the earlier one. -/
def descKeyGE (key : DRow → Option ℚ) (a b : DRow) : Prop :=
  ∀ x y, key a = some x → key b = some y → y ≤ x

/-- Modelled from the spec: the tie-breaking rule the specification
prescribes for mode imputation, the most frequent value first
encountered in row order.  The source instead takes the least tied value
in sort order. -/
def firstMostFrequent (xs : List (Option String)) : Option String :=
  let vs := xs.filterMap id
  let maxc := (vs.map (fun v => vs.count v)).foldr max 0
  (vs.filter (fun v => vs.count v = maxc)).head?

/-! ### Helper lemmas -/

theorem foldl_snoc_eq (l acc : List (List Cell)) :
    l.foldl (fun ws r => ws ++ [r]) acc = acc ++ l := by
  induction l generalizing acc with
  | nil => simp
  | cons a l ih => simp [List.foldl_cons, ih]

theorem richCleanedSheet_eq (t : List DRow) :
    richCleanedSheet t = headerRow :: t.map rowCells := by
  unfold richCleanedSheet
  rw [foldl_snoc_eq]
  rfl

theorem clean_eq_some (t t2 : List Row) (h : clean t = some t2) :
    ∃ fvG fvR fvP fvL fvT,
      catFill (t.map (fun r => r.gender)) = some fvG ∧
      catFill (t.map (fun r => r.raceEthnicity)) = some fvR ∧
      catFill (t.map (fun r => r.parentalEducation)) = some fvP ∧
      catFill (t.map (fun r => r.lunch)) = some fvL ∧
      catFill (t.map (fun r => r.testPrep)) = some fvT ∧
      t2 = t.map (cleanRow (numFill (t.map (fun r => r.math)))
        (numFill (t.map (fun r => r.reading))) (numFill (t.map (fun r => r.writing)))
        fvG fvR fvP fvL fvT) := by
  unfold clean at h
  split at h
  · next fvG fvR fvP fvL fvT hG hR hP hL hT =>
      exact ⟨fvG, fvR, fvP, fvL, fvT, hG, hR, hP, hL, hT, (Option.some.injEq _ _ ▸ h).symm⟩
  · exact absurd h (by simp)

theorem numFill_complete (xs : List (Option ℚ)) (hOK : colOK xs) (x : Option ℚ)
    (hx : x ∈ xs) : (fillCell (numFill xs) x).isSome = true := by
  cases x with
  | some v => rfl
  | none =>
    have hany : xs.any (fun x => x.isNone) = true := List.any_eq_true.2 ⟨none, hx, rfl⟩
    rcases hOK with hnil | hsome
    · subst hnil; cases hx
    · obtain ⟨a, ha, hsa⟩ := List.any_eq_true.1 hsome
      obtain ⟨v, rfl⟩ := Option.isSome_iff_exists.1 hsa
      have hv : v ∈ xs.filterMap id := List.mem_filterMap.2 ⟨some v, ha, rfl⟩
      have hne : xs.filterMap id ≠ [] := List.ne_nil_of_mem hv
      simp [fillCell, numFill, hany, colMean, hne]

theorem catFill_complete (xs : List (Option String)) (fv : Option String)
    (h : catFill xs = some fv) (x : Option String) (hx : x ∈ xs) :
    (fillCell fv x).isSome = true := by
  cases x with
  | some v => rfl
  | none =>
    have hany : xs.any (fun x => x.isNone) = true := List.any_eq_true.2 ⟨none, hx, rfl⟩
    unfold catFill at h
    rw [if_pos hany] at h
    cases hm : modeVal xs with
    | none => rw [hm] at h; cases h
    | some m => rw [hm] at h; cases h; rfl

theorem clean_complete (t t2 : List Row)
    (hM : colOK (t.map (fun r => r.math))) (hR : colOK (t.map (fun r => r.reading)))
    (hW : colOK (t.map (fun r => r.writing))) (h : clean t = some t2) :
    ∀ r ∈ t2, rowComplete r := by
  obtain ⟨fvG, fvR, fvP, fvL, fvT, hG, hRc, hP, hL, hT, ht2⟩ := clean_eq_some t t2 h
  subst ht2
  intro r2 hr2
  obtain ⟨r, hr, rfl⟩ := List.mem_map.1 hr2
  exact ⟨catFill_complete _ _ hG _ (List.mem_map_of_mem _ hr),
    catFill_complete _ _ hRc _ (List.mem_map_of_mem _ hr),
    catFill_complete _ _ hP _ (List.mem_map_of_mem _ hr),
    catFill_complete _ _ hL _ (List.mem_map_of_mem _ hr),
    catFill_complete _ _ hT _ (List.mem_map_of_mem _ hr),
    numFill_complete _ hM _ (List.mem_map_of_mem _ hr),
    numFill_complete _ hR _ (List.mem_map_of_mem _ hr),
    numFill_complete _ hW _ (List.mem_map_of_mem _ hr)⟩

/-! ### C1 -/

/-- C1: the performance band is a deterministic, non-overlapping,
exhaustive partition of the line into the four right-closed intervals:
every value is in the Low band exactly when it is at most 50, in the
Fair band exactly when it is in (50, 70], in the Good band exactly when
it is in (70, 85], and in the Excellent band exactly when it is above
85; in particular 85 is classified Good, 85.01 Excellent, and 50 Low. -/
theorem c1_band_partition (x : ℚ) :
    ((x ≤ 50) ↔ bandOf x = Band.Low) ∧
    ((50 < x ∧ x ≤ 70) ↔ bandOf x = Band.Fair) ∧
    ((70 < x ∧ x ≤ 85) ↔ bandOf x = Band.Good) ∧
    ((85 < x) ↔ bandOf x = Band.Excellent) ∧
    bandOf 85 = Band.Good ∧ bandOf (8501/100) = Band.Excellent ∧
    bandOf 50 = Band.Low := by
  have h85 : bandOf 85 = Band.Good := by norm_num [bandOf]
  have h8501 : bandOf (8501/100) = Band.Excellent := by norm_num [bandOf]
  have h50 : bandOf 50 = Band.Low := by norm_num [bandOf]
  have hLow : (x ≤ 50) ↔ bandOf x = Band.Low := by
    constructor
    · intro h; unfold bandOf; rw [if_pos h]
    · intro h
      by_contra hx
      push_neg at hx
      unfold bandOf at h
      rw [if_neg (not_le.2 hx)] at h
      split_ifs at h <;> exact absurd h (by decide)
  have hFair : (50 < x ∧ x ≤ 70) ↔ bandOf x = Band.Fair := by
    constructor
    · rintro ⟨h1, h2⟩; unfold bandOf; rw [if_neg (not_le.2 h1), if_pos h2]
    · intro h
      unfold bandOf at h
      split_ifs at h with h1 h2 <;>
        first
          | exact absurd h (by decide)
          | exact ⟨not_le.1 h1, h2⟩
  have hGood : (70 < x ∧ x ≤ 85) ↔ bandOf x = Band.Good := by
    constructor
    · rintro ⟨h1, h2⟩
      unfold bandOf
      rw [if_neg (not_le.2 (by linarith)), if_neg (not_le.2 h1), if_pos h2]
    · intro h
      unfold bandOf at h
      split_ifs at h with h1 h2 h3 <;>
        first
          | exact absurd h (by decide)
          | exact ⟨not_le.1 h2, h3⟩
  have hExc : (85 < x) ↔ bandOf x = Band.Excellent := by
    constructor
    · intro h1
      unfold bandOf
      rw [if_neg (not_le.2 (by linarith)), if_neg (not_le.2 (by linarith)),
        if_neg (not_le.2 h1)]
    · intro h
      unfold bandOf at h
      split_ifs at h with h1 h2 h3 <;>
        first
          | exact absurd h (by decide)
          | exact not_le.1 h3
  exact ⟨hLow, hFair, hGood, hExc, h85, h8501, h50⟩

/-! ### C7 -/

/-- C7: the rich report path and the fallback report path produce the
same Cleaned_Data cell grid for the same derived table, and write the
same summary data values block for block; they differ only in chart
embedding, which is outside the data model. -/
theorem c7_paths_agree (t : List DRow) (out : PipelineOut)
    (byGender byRace byPrep : List (String × List ℚ)) :
    richCleanedSheet t = fallbackCleanedSheet t ∧
    richSummaryData out byGender byRace byPrep =
      fallbackSummaryData out byGender byRace byPrep := by
  exact ⟨richCleanedSheet_eq t, rfl⟩

/-! ### C8 -/

/-- Row with every score missing: its Average is missing when the band
is derived. -/
def exC8row : Row :=
  { gender := some "female", raceEthnicity := some "group A",
    parentalEducation := some "some college", lunch := some "standard",
    testPrep := some "none", math := none, reading := none, writing := none }

/-- C8 counterexample: on a row whose Average is missing the derivation
step does not fail; it produces a row whose Performance Band is silently
missing (`pd.cut` maps NaN to NaN), contradicting the claim that a
DeriveError is raised and a missing band never assigned. -/
theorem c8_counterexample :
    addDerived [exC8row] = [derive exC8row] ∧
    (derive exC8row).average = none ∧
    (derive exC8row).band = none := by
  exact ⟨rfl, by decide, by decide⟩

/-- C8 amended: when the Average of a row is missing at band-derivation
time, the derivation step assigns a missing band to that row and raises
no error; it never invents a band for a missing Average. -/
theorem c8_amended (r : Row) (h : (derive r).average = none) :
    (derive r).band = none := by
  simp only [derive] at h ⊢
  rw [h]
  rfl

/-- C8 witness: the amended fact at the all-scores-missing row. -/
theorem c8_witness : (derive exC8row).band = none :=
  c8_amended exC8row (by decide)

/-! ### C2 -/

/-- Table whose Math column is entirely missing. -/
def exC2 : List Row :=
  [{ gender := some "female", raceEthnicity := some "group B",
     parentalEducation := some "high school", lunch := some "standard",
     testPrep := some "none", math := none, reading := some 70, writing := some 80 }]

/-- C2 counterexample: on a table whose Math column is entirely missing,
the fill-missing step completes but leaves the Math values missing (the
column mean of an all-missing column is itself missing and `fillna`
with it is the identity), so the no-missing-values postcondition fails
for this input table. -/
theorem c2_counterexample :
    clean exC2 = some exC2 ∧ ∃ r ∈ exC2, ¬ rowComplete r := by
  decide

/-- C2 amended: after the fill-missing step completes, no value is
missing, provided every numeric column is either empty or has at least
one non-missing value (an entirely missing nonempty numeric column keeps
its missing values, and an entirely missing nonempty categorical column
makes the step raise instead of completing). -/
theorem c2_amended (t t2 : List Row)
    (hM : colOK (t.map (fun r => r.math))) (hR : colOK (t.map (fun r => r.reading)))
    (hW : colOK (t.map (fun r => r.writing))) (h : clean t = some t2) :
    ∀ r ∈ t2, rowComplete r :=
  clean_complete t t2 hM hR hW h

/-- Table with one missing Math score and one missing Reading score. -/
def exW2 : List Row :=
  [{ gender := some "male", raceEthnicity := some "group A",
     parentalEducation := some "high school", lunch := some "standard",
     testPrep := some "none", math := some 40, reading := some 60, writing := some 80 },
   { gender := some "female", raceEthnicity := some "group B",
     parentalEducation := some "some college", lunch := some "reduced",
     testPrep := some "completed", math := none, reading := some 70, writing := some 90 }]

/-- The second row of `exW2` after cleaning: the missing Math score is
filled with the Math column mean 40. -/
def rw2bC : Row :=
  { gender := some "female", raceEthnicity := some "group B",
    parentalEducation := some "some college", lunch := some "reduced",
    testPrep := some "completed", math := some 40, reading := some 70, writing := some 90 }

/-- The cleaned form of `exW2`. -/
def exW2C : List Row :=
  [{ gender := some "male", raceEthnicity := some "group A",
     parentalEducation := some "high school", lunch := some "standard",
     testPrep := some "none", math := some 40, reading := some 60, writing := some 80 },
   rw2bC]

/-- C2 witness: the amended statement at a concrete table with a
missing score, instantiated at the filled row. -/
theorem c2_witness : rowComplete rw2bC := by
  have h : clean exW2 = some exW2C := by
    norm_num [clean, catFill, numFill, colMean, cleanRow, fillCell, exW2, exW2C, rw2bC,
      List.filterMap_cons, id_eq]
  exact c2_amended exW2 exW2C (by decide) (by decide) (by decide) h rw2bC (by decide)

/-! ### C3 -/

/-- C3: for every row of the cleaned table (under the conditions that
make cleaning fill every score), the three scores are present and the
derived Average is round((Math + Reading + Writing) / 3, 2) computed
from those post-cleaning values. -/
theorem c3_average (t t2 : List Row)
    (hM : colOK (t.map (fun r => r.math))) (hR : colOK (t.map (fun r => r.reading)))
    (hW : colOK (t.map (fun r => r.writing))) (h : clean t = some t2) :
    ∀ r ∈ t2, ∃ m rd w, r.math = some m ∧ r.reading = some rd ∧ r.writing = some w ∧
      rowAverage r = some (round2 ((m + rd + w) / 3)) := by
  intro r hr
  obtain ⟨-, -, -, -, -, hm, hrd, hw⟩ := clean_complete t t2 hM hR hW h r hr
  obtain ⟨m, hm⟩ := Option.isSome_iff_exists.1 hm
  obtain ⟨rd, hrd⟩ := Option.isSome_iff_exists.1 hrd
  obtain ⟨w, hw⟩ := Option.isSome_iff_exists.1 hw
  refine ⟨m, rd, w, hm, hrd, hw, ?_⟩
  unfold rowAverage
  rw [hm, hrd, hw]
  have h3 : ([some m, some rd, some w].filterMap id) = [m, rd, w] := rfl
  rw [h3, if_neg (by simp)]
  congr 1
  congr 1
  simp [List.sum_cons]
  push_cast
  ring

/-- First row of the fully present table `exW3`. -/
def rw3a : Row :=
  { gender := some "male", raceEthnicity := some "group C",
    parentalEducation := some "high school", lunch := some "standard",
    testPrep := some "none", math := some 40, reading := some 50, writing := some 60 }

/-- Fully present two-row table. -/
def exW3 : List Row :=
  [rw3a,
   { gender := some "female", raceEthnicity := some "group D",
     parentalEducation := some "some college", lunch := some "reduced",
     testPrep := some "completed", math := some 90, reading := some 80, writing := some 100 }]

/-- C3 witness: the Average formula at a concrete row of a concrete
cleaned table. -/
theorem c3_witness :
    ∃ m rd w, rw3a.math = some m ∧ rw3a.reading = some rd ∧ rw3a.writing = some w ∧
      rowAverage rw3a = some (round2 ((m + rd + w) / 3)) :=
  c3_average exW3 exW3 (by decide) (by decide) (by decide) (by decide) rw3a (by decide)

/-! ### C6 -/

theorem bandCounts_sum (d : List DRow) :
    ((bandCounts d).map Prod.snd).sum = d.countP (fun r => (r.band).isSome) := by
  induction d with
  | nil => rfl
  | cons r rest ih =>
    simp only [bandCounts, List.map_cons, List.map_nil, List.sum_cons, List.sum_nil,
      List.countP_cons] at ih ⊢
    rcases hr : r.band with _ | b
    · simp [hr]
      omega
    · cases b <;> simp [hr] <;> omega

/-- C6 amended: for every derived table the band distribution has
exactly 4 entries in the fixed order Low, Fair, Good, Excellent, with a
zero count for a band with no member rows; the counts sum to the number
of rows whose band is present, which equals the total row count exactly
when every row has a band (a row whose Average is missing gets a missing
band and is dropped by `value_counts`). -/
theorem c6_amended (d : List DRow) :
    (bandCounts d).map Prod.fst = [Band.Low, Band.Fair, Band.Good, Band.Excellent] ∧
    (bandCounts d).length = 4 ∧
    ((bandCounts d).map Prod.snd).sum = d.countP (fun r => (r.band).isSome) ∧
    ((∀ r ∈ d, (r.band).isSome = true) →
      ((bandCounts d).map Prod.snd).sum = d.length) := by
  refine ⟨by simp [bandCounts], by simp [bandCounts], bandCounts_sum d, ?_⟩
  intro hall
  rw [bandCounts_sum d]
  exact List.countP_eq_length.2 hall

/-- Table with one row whose scores are all missing. -/
def exC6 : List Row :=
  [{ gender := some "male", raceEthnicity := some "group E",
     parentalEducation := some "high school", lunch := some "standard",
     testPrep := some "none", math := none, reading := none, writing := none }]

/-- C6 counterexample: on the table `exC6` the pipeline completes, the
derived table has one row, and the four band counts sum to 0, not to the
row count 1 — the Average of the row is missing, so its band is missing and
`value_counts` drops it. -/
theorem c6_counterexample :
    clean exC6 = some exC6 ∧ (addDerived exC6).length = 1 ∧
    ((bandCounts (addDerived exC6)).map Prod.snd).sum = 0 := by
  decide

/-- One fully present row. -/
def exC6good : List Row :=
  [{ gender := some "female", raceEthnicity := some "group A",
     parentalEducation := some "some college", lunch := some "standard",
     testPrep := some "completed", math := some 60, reading := some 70, writing := some 80 }]

/-- C6 witness: the amended statement at a concrete derived table where
every row has a band, so the counts sum to the row count. -/
theorem c6_witness :
    (∀ r ∈ addDerived exC6good, (r.band).isSome = true) ∧
    ((bandCounts (addDerived exC6good)).map Prod.snd).sum =
      (addDerived exC6good).length := by
  have hall : ∀ r ∈ addDerived exC6good, (r.band).isSome = true := by decide
  exact ⟨hall, (c6_amended (addDerived exC6good)).2.2.2 hall⟩

/-! ### C4 -/

theorem key_isNone_eq (key : DRow → Option ℚ) :
    (fun r : DRow => (key r).isNone) = fun r : DRow => !(key r).isSome := by
  funext r
  cases key r <;> rfl

theorem descBy_perm (key : DRow → Option ℚ) (t : List DRow) :
    List.Perm (descBy key t) t := by
  unfold descBy
  have h1 : List.Perm
      ((List.insertionSort (fun a b => ((key a).getD 0) ≤ ((key b).getD 0))
        (t.filter fun r => (key r).isSome)).reverse)
      (t.filter fun r => (key r).isSome) :=
    (List.reverse_perm _).trans (List.perm_insertionSort _ _)
  rw [key_isNone_eq key]
  exact (h1.append (List.Perm.refl _)).trans (List.filter_append_perm _ t)

theorem descBy_sorted (key : DRow → Option ℚ) (t : List DRow) :
    (descBy key t).Pairwise (descKeyGE key) := by
  unfold descBy
  rw [List.pairwise_append]
  have hnone : ∀ b ∈ t.filter (fun r => (key r).isNone), key b = none := by
    intro b hb
    have := (List.mem_filter.1 hb).2
    exact Option.isNone_iff_eq_none.1 this
  refine ⟨?_, ?_, ?_⟩
  · rw [List.pairwise_reverse]
    have hs : (List.insertionSort (fun a b => ((key a).getD 0) ≤ ((key b).getD 0))
        (t.filter fun r => (key r).isSome)).Pairwise
        (fun a b => ((key a).getD 0) ≤ ((key b).getD 0)) := by
      haveI : IsTotal DRow (fun a b => ((key a).getD 0) ≤ ((key b).getD 0)) :=
        ⟨fun a b => le_total _ _⟩
      haveI : IsTrans DRow (fun a b => ((key a).getD 0) ≤ ((key b).getD 0)) :=
        ⟨fun a b c hab hbc => le_trans hab hbc⟩
      exact List.sorted_insertionSort _ _
    refine hs.imp ?_
    intro a b hab x y hx hy
    rw [hx, hy, Option.getD_some, Option.getD_some] at hab
    exact hab
  · refine List.pairwise_of_forall_mem_list ?_
    intro a _ b hb x y _ hy
    rw [hnone b hb] at hy
    cases hy
  · intro a _ b hb x y _ hy
    rw [hnone b hb] at hy
    cases hy

/-- C4 amended: each top view returns exactly min(20, row count) rows,
sorted descending by its column, and consists of the first 20 rows of a full
descending sort that is a permutation of the whole table; however the
order of tied rows is not the original row order (pandas obtains the
descending order by reversing a stable ascending sort, so ties come out
reversed — see the counterexample). -/
theorem c4_amended (t : List DRow) :
    (sortedByAvgDesc t).length = min 20 t.length ∧
    (sortedByMathDesc t).length = min 20 t.length ∧
    (sortedByAvgDesc t).Pairwise (descKeyGE (fun r => r.average)) ∧
    (sortedByMathDesc t).Pairwise (descKeyGE (fun r => r.base.math)) ∧
    sortedByAvgDesc t = (descBy (fun r => r.average) t).take 20 ∧
    sortedByMathDesc t = (descBy (fun r => r.base.math) t).take 20 ∧
    List.Perm (descBy (fun r => r.average) t) t ∧
    List.Perm (descBy (fun r => r.base.math) t) t := by
  refine ⟨?_, ?_, ?_, ?_, rfl, rfl, descBy_perm _ t, descBy_perm _ t⟩
  · rw [sortedByAvgDesc, topN, List.length_take, (descBy_perm _ t).length_eq]
  · rw [sortedByMathDesc, topN, List.length_take, (descBy_perm _ t).length_eq]
  · exact List.Pairwise.sublist (List.take_sublist _ _) (descBy_sorted _ t)
  · exact List.Pairwise.sublist (List.take_sublist _ _) (descBy_sorted _ t)

/-- First of two rows with identical scores. -/
def exR1 : Row :=
  { gender := some "a", raceEthnicity := some "group A",
    parentalEducation := some "high school", lunch := some "standard",
    testPrep := some "none", math := some 60, reading := some 70, writing := some 80 }

/-- Second of two rows with identical scores, differing in Gender. -/
def exR2 : Row :=
  { gender := some "b", raceEthnicity := some "group A",
    parentalEducation := some "high school", lunch := some "standard",
    testPrep := some "none", math := some 60, reading := some 70, writing := some 80 }

/-- C4 counterexample: two distinct rows tied on Average come out of
the top-by-Average view in reversed original order, refuting the
stable-original-order tie-breaking stated in the claim. -/
theorem c4_counterexample :
    (derive exR1).average = (derive exR2).average ∧
    derive exR1 ≠ derive exR2 ∧
    sortedByAvgDesc (addDerived [exR1, exR2]) = [derive exR2, derive exR1] := by
  have hv1 : rowAverage exR1 = some 70 := by
    norm_num [rowAverage, exR1, round2, rne, List.filterMap_cons, id_eq] <;>
      exact fun h => absurd h (by decide)
  have hv2 : rowAverage exR2 = some 70 := by
    norm_num [rowAverage, exR2, round2, rne, List.filterMap_cons, id_eq] <;>
      exact fun h => absurd h (by decide)
  have h1 : derive exR1 = { base := exR1, average := some 70, band := some (bandOf 70) } := by
    rw [derive, hv1]
    rfl
  have h2 : derive exR2 = { base := exR2, average := some 70, band := some (bandOf 70) } := by
    rw [derive, hv2]
    rfl
  refine ⟨by rw [h1, h2], ?_, ?_⟩
  · rw [h1, h2]
    intro hEq
    have : exR1 = exR2 := congrArg DRow.base hEq
    exact absurd this (by decide)
  · show topN (fun r => r.average) 20 (addDerived [exR1, exR2]) = _
    rw [addDerived, List.map_cons, List.map_cons, List.map_nil, h1, h2]
    simp [topN, descBy, List.insertionSort, List.orderedInsert]

/-! ### C9 -/

/-- C9: no pipeline stage adds or removes rows — the cleaned table, the
derived table, and the Cleaned_Data sheet (header plus data rows) all
preserve the loaded row count, and the sheet carries the cells of every
row, duplicates included, at its original index. -/
theorem c9_rows_preserved (t t2 : List Row) (h : clean t = some t2) :
    t2.length = t.length ∧ (addDerived t2).length = t.length ∧
    (richCleanedSheet (addDerived t2)).length = t.length + 1 ∧
    ∀ i r, t[i]? = some r → ∃ dr, (addDerived t2)[i]? = some dr ∧
      (richCleanedSheet (addDerived t2))[i + 1]? = some (rowCells dr) := by
  obtain ⟨fvG, fvR, fvP, fvL, fvT, hG, hRc, hP, hL, hT, ht2⟩ := clean_eq_some t t2 h
  subst ht2
  refine ⟨List.length_map _ _, ?_, ?_, ?_⟩
  · rw [addDerived, List.length_map, List.length_map]
  · rw [richCleanedSheet_eq, List.length_cons, List.length_map, addDerived,
      List.length_map, List.length_map]
  · intro i r hir
    refine ⟨derive (cleanRow (numFill (t.map (fun r => r.math)))
      (numFill (t.map (fun r => r.reading))) (numFill (t.map (fun r => r.writing)))
      fvG fvR fvP fvL fvT r), ?_, ?_⟩
    · rw [addDerived, List.getElem?_map, List.getElem?_map, hir]
      rfl
    · rw [richCleanedSheet_eq, List.getElem?_cons_succ, List.getElem?_map, addDerived,
        List.getElem?_map, List.getElem?_map, hir]
      rfl

/-- A fully present row, used twice to form a table with an exact
duplicate. -/
def rw9 : Row :=
  { gender := some "male", raceEthnicity := some "group C",
    parentalEducation := some "high school", lunch := some "standard",
    testPrep := some "none", math := some 50, reading := some 60, writing := some 70 }

/-- Table consisting of the same row twice. -/
def exW9 : List Row := [rw9, rw9]

/-- C9 witness: on a table with an exact duplicate row, the duplicate is
counted, and both copies survive into the report at their row indices. -/
theorem c9_witness :
    duplicateCount exW9 = 1 ∧
    (richCleanedSheet (addDerived exW9)).length = exW9.length + 1 ∧
    (∃ dr, (addDerived exW9)[1]? = some dr ∧
      (richCleanedSheet (addDerived exW9))[1 + 1]? = some (rowCells dr)) := by
  have h := c9_rows_preserved exW9 exW9 (by decide)
  exact ⟨by decide, h.2.2.1, h.2.2.2 1 rw9 rfl⟩

/-! ### C10 -/

/-- Table with exactly one missing value, in the Math column. -/
def exC10 : List Row :=
  [{ gender := some "male", raceEthnicity := some "group A",
     parentalEducation := some "high school", lunch := some "standard",
     testPrep := some "none", math := some 40, reading := some 50, writing := some 60 },
   { gender := some "female", raceEthnicity := some "group B",
     parentalEducation := some "some college", lunch := some "reduced",
     testPrep := some "completed", math := none, reading := some 70, writing := some 10 }]

/-- The cleaned form of `exC10`: the missing Math value is filled with
the column mean 40. -/
def exC10C : List Row :=
  [{ gender := some "male", raceEthnicity := some "group A",
     parentalEducation := some "high school", lunch := some "standard",
     testPrep := some "none", math := some 40, reading := some 50, writing := some 60 },
   { gender := some "female", raceEthnicity := some "group B",
     parentalEducation := some "some college", lunch := some "reduced",
     testPrep := some "completed", math := some 40, reading := some 70, writing := some 10 }]

/-- C10: the missing-value counts the report carries are the counts
measured on the loaded table before any filling (a permutation of the
per-column counts, reordered by count), and on a concrete table with a
missing Math value the report still carries that nonzero count while the
cleaned table has no missing value left. -/
theorem c10_missing_preclean (t : List Row) :
    ((runPipeline t).map (fun o => o.reportMissing) =
      (clean t).map (fun _ => reportedMissing t)) ∧
    List.Perm (reportedMissing t) (missingCounts t) ∧
    ("Math", 1) ∈ missingCounts exC10 ∧
    clean exC10 = some exC10C ∧
    (∀ r ∈ exC10C, rowComplete r) := by
  refine ⟨?_, ?_, by decide, ?_, by decide⟩
  · cases hc : clean t with
    | none => simp [runPipeline, hc]
    | some t2 => simp [runPipeline, hc]
  · unfold reportedMissing
    exact (List.reverse_perm _).trans (List.perm_insertionSort _ _)
  · norm_num [clean, catFill, numFill, colMean, cleanRow, fillCell, exC10, exC10C,
      List.filterMap_cons, id_eq]

/-! ### C5 -/

theorem charListLe_refl (as : List Char) : charListLe as as = true := by
  induction as with
  | nil => rfl
  | cons a as ih => simp [charListLe, ih]

theorem charListLe_total (as bs : List Char) :
    charListLe as bs = true ∨ charListLe bs as = true := by
  induction as generalizing bs with
  | nil => exact Or.inl rfl
  | cons a as ih =>
    cases bs with
    | nil => exact Or.inr rfl
    | cons b bs =>
      by_cases hab : a = b
      · subst hab
        simp only [charListLe, if_pos rfl]
        exact ih bs
      · rcases lt_or_gt_of_ne hab with hlt | hgt
        · exact Or.inl (by simp [charListLe, hab, hlt])
        · exact Or.inr (by simp [charListLe, Ne.symm hab, hgt])

theorem charListLe_trans (as bs cs : List Char) (h1 : charListLe as bs = true)
    (h2 : charListLe bs cs = true) : charListLe as cs = true := by
  induction as generalizing bs cs with
  | nil => rfl
  | cons a as ih =>
    cases bs with
    | nil => simp [charListLe] at h1
    | cons b bs =>
      cases cs with
      | nil => simp [charListLe] at h2
      | cons c cs =>
        simp only [charListLe] at h1 h2 ⊢
        by_cases hab : a = b
        · subst hab
          rw [if_pos rfl] at h1
          by_cases hbc : a = c
          · subst hbc
            rw [if_pos rfl] at h2 ⊢
            exact ih bs cs h1 h2
          · rw [if_neg hbc] at h2 ⊢
            exact h2
        · rw [if_neg hab] at h1
          have hlt1 : a < b := of_decide_eq_true h1
          by_cases hbc : b = c
          · subst hbc
            rw [if_neg hab]
            exact h1
          · rw [if_neg hbc] at h2
            have hlt2 : b < c := of_decide_eq_true h2
            have hac : a < c := lt_trans hlt1 hlt2
            rw [if_neg (ne_of_lt hac)]
            exact decide_eq_true hac

theorem strLe_refl (a : String) : strLe a a = true := charListLe_refl _

theorem strLe_total (a b : String) : strLe a b = true ∨ strLe b a = true :=
  charListLe_total _ _

theorem strLe_trans (a b c : String) (h1 : strLe a b = true) (h2 : strLe b c = true) :
    strLe a c = true :=
  charListLe_trans _ _ _ h1 h2

theorem foldlMin_mem (bs : List String) (b : String) :
    bs.foldl (fun a c => if strLe a c then a else c) b ∈ b :: bs := by
  induction bs generalizing b with
  | nil => exact List.mem_cons_self _ _
  | cons c cs ih =>
    simp only [List.foldl_cons]
    have h := ih (if strLe b c then b else c)
    rcases List.mem_cons.1 h with h1 | h1
    · rw [h1]
      split_ifs <;> simp
    · exact List.mem_cons_of_mem b (List.mem_cons_of_mem c h1)

theorem foldlMin_le (bs : List String) :
    ∀ b x, x ∈ b :: bs →
      strLe (bs.foldl (fun a c => if strLe a c then a else c) b) x = true := by
  induction bs with
  | nil =>
    intro b x hx
    rcases List.mem_cons.1 hx with h1 | h1
    · subst h1
      exact strLe_refl x
    · cases h1
  | cons c cs ih =>
    intro b x hx
    simp only [List.foldl_cons]
    have hmb : strLe (if strLe b c then b else c) b = true := by
      by_cases hbc : strLe b c = true
      · rw [if_pos hbc]
        exact strLe_refl b
      · rw [if_neg hbc]
        rcases strLe_total b c with hh | hh
        · exact absurd hh hbc
        · exact hh
    have hmc : strLe (if strLe b c then b else c) c = true := by
      by_cases hbc : strLe b c = true
      · rw [if_pos hbc]
        exact hbc
      · rw [if_neg hbc]
        exact strLe_refl c
    rcases List.mem_cons.1 hx with h1 | h1
    · subst h1
      exact strLe_trans _ _ _ (ih _ _ (List.mem_cons_self _ _)) hmb
    · rcases List.mem_cons.1 h1 with h2 | h2
      · subst h2
        exact strLe_trans _ _ _ (ih _ _ (List.mem_cons_self _ _)) hmc
      · exact ih _ _ (List.mem_cons_of_mem _ h2)

theorem le_foldr_max (l : List ℕ) (a : ℕ) (ha : a ∈ l) : a ≤ l.foldr max 0 := by
  induction l with
  | nil => cases ha
  | cons b l ih =>
    rcases List.mem_cons.1 ha with h | h
    · subst h
      exact le_max_left _ _
    · exact le_trans (ih h) (le_max_right _ _)

theorem foldr_max_attained (l : List ℕ) :
    l.foldr max 0 = 0 ∨ l.foldr max 0 ∈ l := by
  induction l with
  | nil => exact Or.inl rfl
  | cons b l ih =>
    simp only [List.foldr_cons]
    rcases max_choice b (l.foldr max 0) with h | h
    · rw [h]
      exact Or.inr (List.mem_cons_self _ _)
    · rw [h]
      rcases ih with h0 | hm
      · exact Or.inl h0
      · exact Or.inr (List.mem_cons_of_mem _ hm)

theorem modeVal_spec (xs : List (Option String)) (f : String) (hf : modeVal xs = some f) :
    f ∈ xs.filterMap id ∧
    (∀ v ∈ xs.filterMap id, (xs.filterMap id).count v ≤ (xs.filterMap id).count f) ∧
    (∀ v ∈ xs.filterMap id, (xs.filterMap id).count v = (xs.filterMap id).count f →
      strLe f v = true) := by
  simp only [modeVal] at hf
  set vs := xs.filterMap id with hvs
  set maxc := (vs.map (fun v => vs.count v)).foldr max 0 with hmaxc
  cases hfil : vs.filter (fun v => vs.count v = maxc) with
  | nil =>
    rw [hfil] at hf
    cases hf
  | cons b bs =>
    rw [hfil] at hf
    have hfold : bs.foldl (fun a c => if strLe a c then a else c) b = f :=
      Option.some.inj hf
    have hmem_f : f ∈ b :: bs := hfold ▸ foldlMin_mem bs b
    have hmem_fil : f ∈ vs.filter (fun v => vs.count v = maxc) := by
      rw [hfil]
      exact hmem_f
    have hf_vs : f ∈ vs := (List.mem_filter.1 hmem_fil).1
    have hf_cnt : vs.count f = maxc := of_decide_eq_true (List.mem_filter.1 hmem_fil).2
    refine ⟨hf_vs, ?_, ?_⟩
    · intro v hv
      rw [hf_cnt]
      exact le_foldr_max _ _ (List.mem_map_of_mem _ hv)
    · intro v hv hcnt
      have hv_fil : v ∈ vs.filter (fun v => vs.count v = maxc) :=
        List.mem_filter.2 ⟨hv, decide_eq_true (hcnt.trans hf_cnt)⟩
      rw [hfil] at hv_fil
      exact hfold ▸ foldlMin_le bs b v hv_fil

theorem catFill_some_mode (xs : List (Option String)) (fv : Option String)
    (hc : catFill xs = some fv) (hmiss : xs.any (fun x => x.isNone) = true) :
    ∃ f, fv = some f ∧ modeVal xs = some f := by
  unfold catFill at hc
  rw [if_pos hmiss] at hc
  cases hm : modeVal xs with
  | none =>
    rw [hm] at hc
    cases hc
  | some m =>
    rw [hm] at hc
    exact ⟨m, (Option.some.inj hc).symm, rfl⟩

/-- C5 amended: for every categorical column with at least one missing
value (and one present value), the cleaning step replaces each missing
value with the most frequent non-missing value of that column, breaking
ties in favor of the least tied value in lexicographic order — not the
first-encountered one: `Series.mode` returns the tied values sorted. -/
theorem c5_amended (t t2 : List Row) (proj : Row → Option String)
    (hproj : proj ∈ [(fun r : Row => r.gender), (fun r : Row => r.raceEthnicity),
      (fun r : Row => r.parentalEducation), (fun r : Row => r.lunch),
      (fun r : Row => r.testPrep)])
    (h : clean t = some t2)
    (hmiss : (t.map proj).any (fun x => x.isNone) = true) :
    ∃ f, modeVal (t.map proj) = some f ∧
      t2.map proj = (t.map proj).map (fillCell (some f)) ∧
      f ∈ (t.map proj).filterMap id ∧
      (∀ v ∈ (t.map proj).filterMap id, ((t.map proj).filterMap id).count v ≤
        ((t.map proj).filterMap id).count f) ∧
      (∀ v ∈ (t.map proj).filterMap id, ((t.map proj).filterMap id).count v =
        ((t.map proj).filterMap id).count f → strLe f v = true) := by
  obtain ⟨fvG, fvR, fvP, fvL, fvT, hG, hRc, hP, hL, hT, ht2⟩ := clean_eq_some t t2 h
  subst ht2
  simp only [List.mem_cons, List.not_mem_nil, or_false] at hproj
  rcases hproj with rfl | rfl | rfl | rfl | rfl
  · obtain ⟨f, rfl, hmode⟩ := catFill_some_mode _ _ hG hmiss
    obtain ⟨hmem, hmax, hmin⟩ := modeVal_spec _ _ hmode
    refine ⟨f, hmode, ?_, hmem, hmax, hmin⟩
    rw [List.map_map, List.map_map]
    rfl
  · obtain ⟨f, rfl, hmode⟩ := catFill_some_mode _ _ hRc hmiss
    obtain ⟨hmem, hmax, hmin⟩ := modeVal_spec _ _ hmode
    refine ⟨f, hmode, ?_, hmem, hmax, hmin⟩
    rw [List.map_map, List.map_map]
    rfl
  · obtain ⟨f, rfl, hmode⟩ := catFill_some_mode _ _ hP hmiss
    obtain ⟨hmem, hmax, hmin⟩ := modeVal_spec _ _ hmode
    refine ⟨f, hmode, ?_, hmem, hmax, hmin⟩
    rw [List.map_map, List.map_map]
    rfl
  · obtain ⟨f, rfl, hmode⟩ := catFill_some_mode _ _ hL hmiss
    obtain ⟨hmem, hmax, hmin⟩ := modeVal_spec _ _ hmode
    refine ⟨f, hmode, ?_, hmem, hmax, hmin⟩
    rw [List.map_map, List.map_map]
    rfl
  · obtain ⟨f, rfl, hmode⟩ := catFill_some_mode _ _ hT hmiss
    obtain ⟨hmem, hmax, hmin⟩ := modeVal_spec _ _ hmode
    refine ⟨f, hmode, ?_, hmem, hmax, hmin⟩
    rw [List.map_map, List.map_map]
    rfl

/-- Table whose Gender column is `["b", "a", missing]`: the two present
values are tied for most frequent and "b" is encountered first. -/
def exC5 : List Row :=
  [{ gender := some "b", raceEthnicity := some "group A",
     parentalEducation := some "high school", lunch := some "standard",
     testPrep := some "none", math := some 50, reading := some 50, writing := some 50 },
   { gender := some "a", raceEthnicity := some "group A",
     parentalEducation := some "high school", lunch := some "standard",
     testPrep := some "none", math := some 50, reading := some 50, writing := some 50 },
   { gender := none, raceEthnicity := some "group A",
     parentalEducation := some "high school", lunch := some "standard",
     testPrep := some "none", math := some 50, reading := some 50, writing := some 50 }]

/-- The cleaned form of `exC5`: the missing Gender is filled with "a". -/
def exC5C : List Row :=
  [{ gender := some "b", raceEthnicity := some "group A",
     parentalEducation := some "high school", lunch := some "standard",
     testPrep := some "none", math := some 50, reading := some 50, writing := some 50 },
   { gender := some "a", raceEthnicity := some "group A",
     parentalEducation := some "high school", lunch := some "standard",
     testPrep := some "none", math := some 50, reading := some 50, writing := some 50 },
   { gender := some "a", raceEthnicity := some "group A",
     parentalEducation := some "high school", lunch := some "standard",
     testPrep := some "none", math := some 50, reading := some 50, writing := some 50 }]

/-- C5 counterexample: with Gender values `["b", "a", missing]`, the
value first encountered among the tied most-frequent values is "b", but
the cleaning step fills the missing cell with "a" (the least tied value
in sort order), refuting the first-encountered tie-breaking rule. -/
theorem c5_counterexample :
    firstMostFrequent (exC5.map fun r => r.gender) = some "b" ∧
    clean exC5 = some exC5C ∧
    exC5C.map (fun r => r.gender) = [some "b", some "a", some "a"] ∧
    ("a" : String) ≠ "b" := by
  exact ⟨by decide, by decide, by decide, by decide⟩

/-- Table with one missing Gender value and one present value "x". -/
def exW5 : List Row :=
  [{ gender := some "x", raceEthnicity := some "group B",
     parentalEducation := some "some college", lunch := some "standard",
     testPrep := some "completed", math := some 30, reading := some 40, writing := some 50 },
   { gender := none, raceEthnicity := some "group C",
     parentalEducation := some "high school", lunch := some "reduced",
     testPrep := some "none", math := some 60, reading := some 70, writing := some 80 }]

/-- The cleaned form of `exW5`: the missing Gender is filled with "x". -/
def exW5C : List Row :=
  [{ gender := some "x", raceEthnicity := some "group B",
     parentalEducation := some "some college", lunch := some "standard",
     testPrep := some "completed", math := some 30, reading := some 40, writing := some 50 },
   { gender := some "x", raceEthnicity := some "group C",
     parentalEducation := some "high school", lunch := some "reduced",
     testPrep := some "none", math := some 60, reading := some 70, writing := some 80 }]

/-- C5 witness: the amended statement at a concrete table with a
missing Gender value. -/
theorem c5_witness :
    ∃ f, modeVal (exW5.map fun r => r.gender) = some f ∧
      exW5C.map (fun r => r.gender) = (exW5.map fun r => r.gender).map (fillCell (some f)) ∧
      f ∈ (exW5.map fun r => r.gender).filterMap id ∧
      (∀ v ∈ (exW5.map fun r => r.gender).filterMap id,
        ((exW5.map fun r => r.gender).filterMap id).count v ≤
        ((exW5.map fun r => r.gender).filterMap id).count f) ∧
      (∀ v ∈ (exW5.map fun r => r.gender).filterMap id,
        ((exW5.map fun r => r.gender).filterMap id).count v =
        ((exW5.map fun r => r.gender).filterMap id).count f → strLe f v = true) := by
  have h : clean exW5 = some exW5C := by decide
  exact c5_amended exW5 exW5C (fun r => r.gender) (List.mem_cons_self _ _) h (by decide)

end Dashboard
